import Mathlib

/-!
Verification of the interactive shell in `src/shell.rs` / `src/autocomplete.rs`
(repository `a-shell`).

Strings are embedded as `List Char`; Rust's ASCII-oriented string operations
(`trim`, `split_whitespace`, `split(" | ")`, `str::replace`, regex character
classes) are given executable models below.  File-system and environment
queries (`fs::read_dir`, executable existence, `env::var("USER")`,
`env::set_current_dir`) are external interfaces of the program and enter the
model as explicit oracle parameters, matching the boundary drawn in §6 of the
design document.
-/

namespace Ashell

/-- ASCII whitespace test; Rust's `split_whitespace`/`trim` on the ASCII
command lines handled by the shell behave identically. -/
def isWs (c : Char) : Bool := c.isWhitespace

/-- Rust `str::trim`: drop whitespace from both ends. -/
def trim (l : List Char) : List Char :=
  ((l.dropWhile isWs).reverse.dropWhile isWs).reverse

/-- Worker for `splitWs`; `cur` holds the current token reversed. -/
def splitWsGo : List Char → List Char → List (List Char)
  | [], cur => if cur.isEmpty then [] else [cur.reverse]
  | c :: rest, cur =>
    if isWs c then
      (if cur.isEmpty then splitWsGo rest [] else cur.reverse :: splitWsGo rest [])
    else splitWsGo rest (c :: cur)

/-- Rust `str::split_whitespace`: maximal non-whitespace runs, empties skipped. -/
def splitWs (l : List Char) : List (List Char) := splitWsGo l []

/-- Worker for `splitOnSep`, fuelled so that it is structurally recursive;
`acc` holds the current segment reversed. -/
def splitOnSepGo (sep : List Char) : Nat → List Char → List Char → List (List Char)
  | 0, acc, rest => [acc.reverse ++ rest]
  | fuel + 1, acc, rest =>
    if sep ≠ [] ∧ sep.isPrefixOf rest then
      acc.reverse :: splitOnSepGo sep fuel [] (rest.drop sep.length)
    else
      match rest with
      | [] => [acc.reverse]
      | c :: rest2 => splitOnSepGo sep fuel (c :: acc) rest2

/-- Rust `str::split(sep)`: split on every non-overlapping occurrence of
`sep`, scanning left to right; adjacent separators yield empty segments. -/
def splitOnSep (sep l : List Char) : List (List Char) :=
  splitOnSepGo sep (l.length + 1) [] l

/-- Worker for `replaceAll`, fuelled; `acc` holds the output reversed. -/
def replaceAllGo (pat repl : List Char) : Nat → List Char → List Char → List Char
  | 0, acc, rest => acc.reverse ++ rest
  | fuel + 1, acc, rest =>
    if pat ≠ [] ∧ pat.isPrefixOf rest then
      replaceAllGo pat repl fuel (repl.reverse ++ acc) (rest.drop pat.length)
    else
      match rest with
      | [] => acc.reverse
      | c :: rest2 => replaceAllGo pat repl fuel (c :: acc) rest2

/-- Rust `str::replace(pat, repl)`: replace every non-overlapping occurrence
of `pat`, scanning left to right.  An empty pattern matches at every
character boundary, as in Rust. -/
def replaceAll (pat repl l : List Char) : List Char :=
  if pat = [] then repl ++ l.foldr (fun c acc => c :: (repl ++ acc)) []
  else replaceAllGo pat repl (l.length + 1) [] l

/-- Rust `[T]::join(sep)` on string slices. -/
def joinSep (sep : List Char) : List (List Char) → List Char
  | [] => []
  | [x] => x
  | x :: y :: rest => x ++ sep ++ joinSep sep (y :: rest)

/-- Rust format `{:<width$}`: left-align, pad with spaces to `w` (no
truncation). -/
def padRight (w : Nat) (s : List Char) : List Char :=
  s ++ List.replicate (w - s.length) ' '

/- ------------------------------------------------------------------ -/
/- Line editor (`collect_input` and its `handle_*` callbacks).          -/
/- ------------------------------------------------------------------ -/

/-- The key events the claims quantify over (`KeyCode::Char`, `Backspace`,
`Up`, `Down`, `Enter` in `collect_input`).  `Tab` and the Ctrl-C interrupt
never touch the history store and are outside the claims' event alphabets. -/
inductive Ev where
  | char (c : Char)
  | backspace
  | up
  | down
  | enter
  deriving DecidableEq, Repr

/-- `char`/`backspace` events, the alphabet of the stack-edit claim. -/
def Ev.isEdit : Ev → Bool
  | .char _ => true
  | .backspace => true
  | _ => false

/-- The mutable state of `collect_input`: `command_history` and `input` are
the `Shell` fields, `index` is the local history cursor (`let mut index =
self.command_history.len()` at the start of each cycle). -/
structure EditorState where
  history : List (List Char)
  input : List Char
  index : Nat
  deriving DecidableEq, Repr

/-- Shell start state: empty history, empty buffer, cursor at `len = 0`. -/
def initState : EditorState := ⟨[], [], 0⟩

/-- One key event of `collect_input`:
* `Char c` — `handle_char_input`: push `c`;
* `Backspace` — `handle_backspace`: pop unless empty;
* `Up` — if `index > 0`: when the cursor sits at `len` and the last stored
  entry differs from the live buffer, first push the live buffer (staging);
  then decrement and recall via `handle_arrow` (which only assigns when the
  new index is in range — the `unwrap` on `last()` in the source is reachable
  only with `index > 0`, hence a non-empty history, and is totalised here by
  the `getLast?` comparison);
* `Down` — if `index < len`: increment and recall via `handle_arrow`;
* `Enter` — `handle_enter`: append the buffer when its trim is non-empty and
  it differs from the last entry; then the `init` loop clears the buffer and
  the next `collect_input` resets the cursor to the new length. -/
def step (s : EditorState) : Ev → EditorState
  | .char c => { s with input := s.input ++ [c] }
  | .backspace =>
    { s with input := if s.input.isEmpty then s.input else s.input.dropLast }
  | .up =>
    if 0 < s.index then
      let hist := if s.index = s.history.length ∧ s.history.getLast? ≠ some s.input
                  then s.history ++ [s.input] else s.history
      let idx := s.index - 1
      { history := hist, index := idx,
        input := if h : idx < hist.length then hist.get ⟨idx, h⟩ else s.input }
    else s
  | .down =>
    if s.index < s.history.length then
      let idx := s.index + 1
      { history := s.history, index := idx,
        input := if h : idx < s.history.length then s.history.get ⟨idx, h⟩ else s.input }
    else s
  | .enter =>
    let hist := if trim s.input ≠ [] ∧ (s.history = [] ∨ s.history.getLast? ≠ some s.input)
                then s.history ++ [s.input] else s.history
    { history := hist, input := [], index := hist.length }

/-- Modelled from the spec: the stack-edit simulation of §8 — "each
character event pushes that character at the end, and each backspace removes
the last character if the buffer is non-empty and does nothing otherwise".
This is the specification-side reference the edit buffer is compared against;
other events leave the simulated buffer untouched. -/
def simStackEdit (buf : List Char) : Ev → List Char
  | .char c => buf ++ [c]
  | .backspace => if buf.isEmpty then buf else buf.dropLast
  | _ => buf

/- ------------------------------------------------------------------ -/
/- Completion engine: `handle_tab` (shell.rs) and `autocomplete`       -/
/- (autocomplete.rs).                                                  -/
/- ------------------------------------------------------------------ -/

/-- One grid cell per matched name: pad to `w`, and break the line after
every `cols`-th entry (`if (i + 1) % columns == 0 \x7b println!() \x7d`). -/
def gridBody (names : List (List Char)) (w cols : Nat) : List Char :=
  (names.enum.map
    (fun p => padRight w p.2 ++ (if (p.1 + 1) % cols = 0 then ['\n'] else []))).flatten

/-- The full multi-match rendering: the leading `println!("")`, the padded
row-major cells, and the trailing newline emitted when the number of
directory entries (`entries.len()`, not the matched count) is not a multiple
of the column count. -/
def grid_out (names : List (List Char)) (total maxw cols : Nat) : List Char :=
  '\n' :: (gridBody names (maxw + 4) cols ++ (if total % cols ≠ 0 then ['\n'] else []))

/-- `self.input.split_whitespace().last().unwrap_or("")`. -/
def lastToken (l : List Char) : List Char := (splitWs l).getLast?.getD []

/-- The tilde rewrite in `handle_tab`: if the fragment starts with a tilde,
every tilde is replaced by `/home/USER` (`user` stands for
`env::var("USER")`, defaulting to `Unknown` outside the model). -/
def tildeExpand (user frag : List Char) : List Char :=
  if frag.head? = some '~' then
    replaceAll ['~'] (("/home/".data) ++ user) frag
  else frag

/-- `Regex::new("[~./]").replace_all(&inp, "")`: the search prefix is the
(tilde-expanded) last token with every tilde, dot and slash removed. -/
def searchedOf (user input : List Char) : List Char :=
  (tildeExpand user (lastToken input)).filter
    (fun c => !(c = '~' || c = '.' || c = '/'))

/-- `Regex::new("[0-9a-zA-Z]").replace_all(&inp, "")`: the directory probed
by `fs::read_dir` is the (tilde-expanded) last token with every ASCII
alphanumeric character removed. -/
def dirOf (user input : List Char) : List Char :=
  (tildeExpand user (lastToken input)).filter (fun c => !c.isAlphanum)

/-- The match filter of both completion implementations:
`searched_file.len() == 0 || file_name.starts_with(&searched_file)`. -/
def matchesOf (searched : List Char) (entries : List (List Char)) : List (List Char) :=
  entries.filter (fun f => searched.isEmpty || searched.isPrefixOf f)

/-- The body of `handle_tab` after the `fs::read_dir` succeeds, returning
(new input buffer, printed output).  With two or more matches it prints the
grid and leaves the buffer alone; otherwise it rewrites the buffer with
`input.replace(&searched_file, &matched)` where `matched` is
`first().unwrap_or("")` — the empty string when nothing matched. -/
def tab_render (user : List Char) (width : Nat) (input : List Char)
    (entries : List (List Char)) : List Char × List Char :=
  let searched := searchedOf user input
  let matching := matchesOf searched entries
  if matching.length > 1 then
    let maxw := (entries.map List.length).foldr max 0
    (input, grid_out matching entries.length maxw (max (width / (maxw + 2)) 1))
  else
    (replaceAll searched (matching.headD []) input, [])

/-- `Shell::handle_tab` (shell.rs lines 94-173): extract the trailing
fragment, expand the tilde, derive the search prefix and directory via the
two regexes, list the directory (`readDir`, the `fs::read_dir` oracle:
`none` models an `Err` that aborts via `?`), then render. -/
def handle_tab (user : List Char) (readDir : List Char → Option (List (List Char)))
    (width : Nat) (input : List Char) : Option (List Char × List Char) :=
  (readDir (dirOf user input)).map (tab_render user width input)

/-- Modelled from the spec: the result of `CommandParser::parse`
(`parser.rs` is not present under `src/`).  Per §4.3 the completion fragment
is the last whitespace-delimited token of the line, split at the path
separators into segments (`paths`); the command name is the line's first
token, used for the directory-only restriction of `cd`. -/
structure ParsedCommand where
  command : List Char
  paths : List (List Char)
  deriving DecidableEq, Repr

/-- Modelled from the spec: `parser.parse(command)` — see `ParsedCommand`. -/
def parse (line : List Char) : ParsedCommand :=
  ⟨(splitWs line).headD [], splitOnSep ['/'] (lastToken line)⟩

/-- `parsed_command.paths.last().map_or("", ...)`: the search prefix. -/
def acSearched (line : List Char) : List Char := (parse line).paths.getLast?.getD []

/-- `parsed_command.paths[..len-1].join("/")`: the directory portion. -/
def acInPath (line : List Char) : List Char := joinSep ['/'] ((parse line).paths.dropLast)

/-- Byte-wise lexicographic order on names, the order `entries.sort()` uses
(the entries share the directory prefix, so path order is name order). -/
def lexLe : List Char → List Char → Bool
  | [], _ => true
  | _ :: _, [] => false
  | x :: xs, y :: ys => if x.val < y.val then true else if y.val < x.val then false else lexLe xs ys

/-- Insertion step of the stable sort. -/
def insertLe {α : Type} (le : α → α → Bool) (a : α) : List α → List α
  | [] => [a]
  | b :: bs => if le a b then a :: b :: bs else b :: insertLe le a bs

/-- Stable insertion sort standing in for `Vec::sort`. -/
def sortLe {α : Type} (le : α → α → Bool) (l : List α) : List α :=
  l.foldr (insertLe le) []

/-- The entry list `autocomplete` works on: sorted, and restricted to
directories when the parsed command is `cd`.  Each entry is a name paired
with its `is_dir` classification. -/
def acEntries (line : List Char) (entries0 : List (List Char × Bool)) :
    List (List Char × Bool) :=
  let sorted := sortLe (fun a b => lexLe a.1 b.1) entries0
  if (parse line).command = "cd".data then sorted.filter (fun e => e.2) else sorted

/-- The matched suggestions of `autocomplete`. -/
def acMatching (line : List Char) (entries0 : List (List Char × Bool)) :
    List (List Char × Bool) :=
  (acEntries line entries0).filter
    (fun e => (acSearched line).isEmpty || (acSearched line).isPrefixOf e.1)

/-- The body of `AutoComplete::autocomplete` after `fs::read_dir` succeeds,
returning (new line, printed output): more than one match prints the grid;
exactly one match rewrites the line with `command.replace(&searched_file,
&format!("\x7b\x7d\x7b\x7d", name, sep))` where `sep` is `/` iff the match is
a directory; zero matches leave the line unchanged. -/
def ac_render (width : Nat) (command : List Char)
    (entries0 : List (List Char × Bool)) : List Char × List Char :=
  let entries := acEntries command entries0
  let matching := acMatching command entries0
  if matching.length > 1 then
    let maxw := (entries.map (fun e => e.1.length)).foldr max 0
    (command,
      grid_out (matching.map (fun e => e.1)) entries.length maxw
        (max (width / (maxw + 2)) 1))
  else if matching.length = 1 then
    let m := matching.headD ([], false)
    (replaceAll (acSearched command) (m.1 ++ (if m.2 then ['/'] else [])) command, [])
  else (command, [])

/-- `AutoComplete::autocomplete` (autocomplete.rs lines 21-87): parse the
line, list the directory portion (`readDir`, the `fs::read_dir` oracle with
`is_dir` classification; `none` models an `Err` propagated via `?`), then
render. -/
def autocomplete (readDir : List Char → Option (List (List Char × Bool)))
    (width : Nat) (command : List Char) : Option (List Char × List Char) :=
  (readDir (acInPath command)).map (ac_render width command)

/-- The rewrite claim C2 mandates: only the trailing whitespace-delimited
token is rewritten, to the matched entry name plus a trailing separator iff
the entry is a directory; everything before that token is untouched. -/
def c2_claim_rewrite (line : List Char) (entry : List Char × Bool) : List Char :=
  (line.reverse.dropWhile (fun c => !isWs c)).reverse
    ++ entry.1 ++ (if entry.2 then ['/'] else [])

/-- The grid claim C4 mandates: column width = longest matched name + 4,
column count = max(1, terminal width / column width), trailing newline after
a final incomplete row of the matches. -/
def c4_claim_grid (matching : List (List Char)) (width : Nat) : List Char :=
  let mw := (matching.map List.length).foldr max 0
  let cols := max (width / (mw + 4)) 1
  '\n' :: (gridBody matching (mw + 4) cols
    ++ (if matching.length % cols ≠ 0 then ['\n'] else []))

/-- Directory-listing oracle for the C4 instances: the current directory
(probed as the empty path, every alphanumeric having been stripped from the
fragment) holds `ab` and `abc`. -/
def rdAB : List Char → Option (List (List Char)) :=
  fun p => if p = [] then some [['a', 'b'], ['a', 'b', 'c']] else none

/-- Directory-listing oracle for the C3 instance: the current directory
holds the single entry `xyz`. -/
def rdXYZ : List Char → Option (List (List Char)) :=
  fun p => if p = [] then some [['x', 'y', 'z']] else none

/-- Directory-listing oracle (with `is_dir` tags) for the C2 counterexample:
the current directory holds the single file `abc`. -/
def rdABC : List Char → Option (List (List Char × Bool)) :=
  fun p => if p = [] then some [(['a', 'b', 'c'], false)] else none

/-- Directory-listing oracle for the C2 witness: the current directory holds
the single directory `abc`. -/
def rdABCdir : List Char → Option (List (List Char × Bool)) :=
  fun p => if p = [] then some [(['a', 'b', 'c'], true)] else none

/- ------------------------------------------------------------------ -/
/- Pipeline builder/executor (`process_input`, `execute_command`,      -/
/- `resolve_command`, `change_directory`, `get_stdin`, `get_stdout`).  -/
/- ------------------------------------------------------------------ -/

/-- The error values that propagate out of `process_input` via `?`:
`Command not found: ...` from `resolve_command`, the io error of
`env::set_current_dir`, and the `"Empty command"` string of
`parts.next().ok_or(...)`. -/
inductive ShellError where
  | CommandNotFound (cmd : List Char)
  | PathNotFound
  | EmptyCommand
  deriving DecidableEq, Repr

/-- A stage's standard-input endpoint: the shell's own input
(`Stdio::inherit`), or the output pipe of the stage spawned `j`-th
(`Stdio::from(child.stdout.take())`). -/
inductive Endpoint where
  | inherit
  | pipeFrom (j : Nat)
  deriving DecidableEq, Repr, Inhabited

/-- A stage's standard-output endpoint: the shell's own output
(`Stdio::inherit`) or a fresh pipe (`Stdio::piped`). -/
inductive OutEndpoint where
  | inherit
  | piped
  deriving DecidableEq, Repr, Inhabited

/-- The model of a `Child` handle: which spawn created it and whether its
stdout was a pipe (so that `child.stdout.take()` yields a handle). -/
structure ChildP where
  idx : Nat
  piped : Bool
  deriving DecidableEq, Repr

/-- One observed `Command::new(..).spawn()`: resolved program path,
arguments, and both endpoints. -/
structure SpawnRec where
  cmd : List Char
  args : List (List Char)
  stdin : Endpoint
  stdout : OutEndpoint
  deriving DecidableEq, Repr, Inhabited

/-- Result of one `execute_command` call: `exit` models
`std::process::exit(0)`, `err` an `Err` propagated via `?`, and `ok` the
returned previous-command handle together with the spawn it performed (if
any) and the working directory afterwards. -/
inductive ExecRes where
  | exit
  | err (e : ShellError)
  | ok (child : Option ChildP) (spawned : Option SpawnRec) (cwd : List Char)
  deriving DecidableEq, Repr

/-- Result of `process_input` on one submitted line: the spawns performed in
order, whether the shell process was terminated (`exit` stage), the error
propagated (if any), the stage index awaited at the end (the final
`previous_command.wait()`), and the final working directory. -/
inductive PRes where
  | exited (spawns : List SpawnRec) (cwd : List Char)
  | errored (e : ShellError) (spawns : List SpawnRec) (cwd : List Char)
  | ok (spawns : List SpawnRec) (awaited : Option Nat) (cwd : List Char)
  deriving DecidableEq, Repr

/-- The spawns a pipeline performed. -/
def PRes.spawns : PRes → List SpawnRec
  | .exited sp _ => sp
  | .errored _ sp _ => sp
  | .ok sp _ _ => sp

/-- The error a pipeline reported (printed by `init` as a diagnostic). -/
def PRes.errOf : PRes → Option ShellError
  | .errored e _ _ => some e
  | _ => none

/-- The stage index `process_input` awaited, if it reached its final wait. -/
def PRes.awaitedOf : PRes → Option Nat
  | .ok _ a _ => a
  | _ => none

/-- The working directory after the pipeline. -/
def PRes.cwdOf : PRes → List Char
  | .exited _ c => c
  | .errored _ _ c => c
  | .ok _ _ c => c

/-- Whether the pipeline completed without error or process exit. -/
def PRes.isOk : PRes → Bool
  | .ok _ _ _ => true
  | _ => false

/-- Whether the pipeline terminated the whole shell process. -/
def PRes.isExited : PRes → Bool
  | .exited _ _ => true
  | _ => false

/-- Modelled from the spec (§6 file-system queries): the OS primitive
`env::set_current_dir` — succeeds and installs the new directory exactly
when the path exists per the `fs` oracle, otherwise fails with `NotFound`
leaving the working directory unchanged. -/
def set_current_dir (fs : List Char → Bool) (path : List Char) :
    Except ShellError (List Char) :=
  if fs path then .ok path else .error .PathNotFound

/-- `Shell::change_directory`: `args.get(0).map_or("/", ...)` then
`env::set_current_dir`. -/
def change_directory (fs : List Char → Bool) (args : List (List Char)) :
    Except ShellError (List Char) :=
  set_current_dir fs (args.headD ("/".data))

/-- `Shell::resolve_command`: a name containing a path separator is used
verbatim; otherwise `/bin` then `/usr/bin` are probed through the existence
oracle `ex`, and failure is `Command not found`. -/
def resolve_command (ex : List Char → Bool) (command : List Char) :
    Except ShellError (List Char) :=
  if '/' ∈ command then .ok command
  else if ex ("/bin/".data ++ command) then .ok ("/bin/".data ++ command)
  else if ex ("/usr/bin/".data ++ command) then .ok ("/usr/bin/".data ++ command)
  else .error (.CommandNotFound command)

/-- `Shell::get_stdin`: the previous stage's stdout handle if there is one
(`child.stdout.take()` is `Some` exactly when that stage was spawned with a
piped stdout), else inherit. -/
def get_stdin (previous : Option ChildP) : Endpoint :=
  match previous with
  | none => .inherit
  | some c => if c.piped then .pipeFrom c.idx else .inherit

/-- `Shell::get_stdout`: a fresh pipe when further stages follow, else
inherit. -/
def get_stdout (has_more : Bool) : OutEndpoint :=
  if has_more then .piped else .inherit

/-- `Shell::execute_command` on one trimmed stage text: empty stages are
skipped (dropping the previous handle), `cd`/`exit`/`about` are dispatched
as built-ins, and any other command is resolved and spawned with the wired
endpoints.  `idx` numbers the spawn this call would perform; the spawn
syscall itself is modelled as succeeding. -/
def execute_command (ex fs : List Char → Bool) (cwd : List Char) (idx : Nat)
    (command_line : List Char) (previous : Option ChildP) (has_more : Bool) :
    ExecRes :=
  if command_line = [] then .ok none none cwd
  else
    match splitWs command_line with
    | [] => .err .EmptyCommand
    | command :: args =>
      if command = "cd".data then
        match change_directory fs args with
        | .ok cwd2 => .ok none none cwd2
        | .error e => .err e
      else if command = "exit".data ∨ command = "exit;".data then .exit
      else if command = "about".data then .ok none none cwd
      else
        match resolve_command ex command with
        | .error e => .err e
        | .ok path =>
          .ok (some ⟨idx, has_more⟩)
            (some ⟨path, args, get_stdin previous, get_stdout has_more⟩) cwd

/-- The stage loop of `process_input`: `while let Some(command) =
commands.next()`, threading the previous child, the spawn count and the
working directory; at the end the final `previous_command` is awaited. -/
def run_stages (ex fs : List Char → Bool) :
    List (List Char) → Option ChildP → Nat → List SpawnRec → List Char → PRes
  | [], previous, _, acc, cwd => .ok acc (previous.map (fun c => c.idx)) cwd
  | stage :: rest, previous, idx, acc, cwd =>
    match execute_command ex fs cwd idx (trim stage) previous (!rest.isEmpty) with
    | .exit => .exited acc cwd
    | .err e => .errored e acc cwd
    | .ok child none cwd2 => run_stages ex fs rest child idx acc cwd2
    | .ok child (some rec) cwd2 => run_stages ex fs rest child (idx + 1) (acc ++ [rec]) cwd2

/-- `Shell::process_input`: split the line on the literal stage delimiter
`" | "` and run the stages. -/
def process_input (ex fs : List Char → Bool) (cwd input : List Char) : PRes :=
  run_stages ex fs (splitOnSep (" | ".data) input) none 0 [] cwd

/-- One turn of `Shell::init`: a line trimming to `exit` breaks the loop;
any other line is processed, errors being printed as diagnostics, and the
loop continues. -/
inductive LoopOut where
  | quit
  | cont (r : PRes)
  deriving DecidableEq, Repr

/-- One iteration of the `init` loop on a collected line. -/
def init_step (ex fs : List Char → Bool) (cwd input : List Char) : LoopOut :=
  if trim input = "exit".data then .quit
  else .cont (process_input ex fs cwd input)

/-- Whether the shell keeps running after this `init` iteration (`exit`
breaks; an `exit` stage terminates the process; errors merely print). -/
def shell_continues : LoopOut → Bool
  | .quit => false
  | .cont r => !r.isExited

/-- First token of a stage text, as `execute_command` parses it. -/
def head_cmd (stage : List Char) : List Char := (splitWs (trim stage)).headD []

/-- Argument list of a stage text. -/
def argsOf (stage : List Char) : List (List Char) := (splitWs (trim stage)).tail

/-- The reserved names `execute_command` intercepts before spawning. -/
def is_builtin_name (c : List Char) : Bool :=
  c = "cd".data || c = "exit".data || c = "exit;".data || c = "about".data

/-- Whether an `Except` is a success. -/
def exOk {α β : Type} : Except α β → Bool
  | .ok _ => true
  | .error _ => false

/-- A stage that parses to a non-built-in command whose executable resolves:
`execute_command` spawns exactly one process for it. -/
def spawnable (ex : List Char → Bool) (stage : List Char) : Bool :=
  match splitWs (trim stage) with
  | [] => false
  | c :: _ =>
    decide (trim stage ≠ []) && !is_builtin_name c && exOk (resolve_command ex c)

/-- A stage that parses to a non-built-in command whose executable does NOT
resolve: `execute_command` fails with `CommandNotFound` for it. -/
def unresolvable (ex : List Char → Bool) (stage : List Char) : Bool :=
  match splitWs (trim stage) with
  | [] => false
  | c :: _ =>
    decide (trim stage ≠ []) && !is_builtin_name c && !exOk (resolve_command ex c)

/-- The resolved executable path of a stage (meaningful when it resolves). -/
def resolvedOf (ex : List Char → Bool) (stage : List Char) : List Char :=
  match resolve_command ex (head_cmd stage) with
  | .ok p => p
  | .error _ => []

/-- The spawn records a run of consecutive spawnable stages produces:
stage `j` of the run is spawned as process `idx + j`, the first stage reads
from `first`, every later stage reads from its predecessor's pipe, and every
stage but the last of the whole list writes to a fresh pipe. -/
def expectedSpawns (ex : List Char → Bool) :
    Nat → Endpoint → List (List Char) → List SpawnRec
  | _, _, [] => []
  | idx, first, stage :: rest =>
    ⟨resolvedOf ex stage, argsOf stage, first,
      if rest.isEmpty then .inherit else .piped⟩
      :: expectedSpawns ex (idx + 1) (.pipeFrom idx) rest

/-- Executable-existence oracle for the C1 counterexample: only `/bin/a`
exists. -/
def exA : List Char → Bool := fun p => p = "/bin/a".data

/-- Executable-existence oracle for the C6 witness: `/bin/a`, `/bin/b`,
`/bin/c` exist. -/
def exABC : List Char → Bool :=
  fun p => p = "/bin/a".data || p = "/bin/b".data || p = "/bin/c".data

/-- A file-system oracle on which no path exists. -/
def fsNone : List Char → Bool := fun _ => false

/-- A file-system oracle on which only the root directory exists. -/
def fsRoot : List Char → Bool := fun p => p = "/".data

/- ------------------------------------------------------------------ -/
/- Lemmas: history invariants of the editor.                           -/
/- ------------------------------------------------------------------ -/

theorem step_char_hist (s : EditorState) (c : Char) :
    (step s (.char c)).history = s.history := rfl

theorem step_backspace_hist (s : EditorState) :
    (step s .backspace).history = s.history := rfl

theorem step_up_hist (s : EditorState) :
    (step s .up).history =
      if 0 < s.index then
        (if s.index = s.history.length ∧ s.history.getLast? ≠ some s.input
         then s.history ++ [s.input] else s.history)
      else s.history := by
  by_cases h0 : 0 < s.index
  · simp only [step, if_pos h0]
  · simp only [step, if_neg h0]

theorem step_down_hist (s : EditorState) :
    (step s .down).history = s.history := by
  by_cases h0 : s.index < s.history.length
  · simp only [step, if_pos h0]
  · simp only [step, if_neg h0]

theorem step_enter_hist (s : EditorState) :
    (step s .enter).history =
      if trim s.input ≠ [] ∧ (s.history = [] ∨ s.history.getLast? ≠ some s.input)
      then s.history ++ [s.input] else s.history := rfl

theorem chain_ne_push {α : Type} (l : List α) (x : α)
    (hc : l.Chain' (· ≠ ·)) (hl : l.getLast? ≠ some x) :
    (l ++ [x]).Chain' (· ≠ ·) := by
  rw [List.chain'_append]
  refine ⟨hc, List.chain'_singleton x, ?_⟩
  intro a ha y hy
  simp only [List.head?_cons, Option.mem_def, Option.some.injEq] at hy
  subst hy
  intro hax
  exact hl (by simpa [hax] using ha)

theorem step_chain (s : EditorState) (e : Ev)
    (hc : s.history.Chain' (· ≠ ·)) : ((step s e).history).Chain' (· ≠ ·) := by
  cases e with
  | char c => rw [step_char_hist]; exact hc
  | backspace => rw [step_backspace_hist]; exact hc
  | up =>
    rw [step_up_hist]
    by_cases h0 : 0 < s.index
    · rw [if_pos h0]
      by_cases hg : s.index = s.history.length ∧ s.history.getLast? ≠ some s.input
      · rw [if_pos hg]; exact chain_ne_push s.history s.input hc hg.2
      · rw [if_neg hg]; exact hc
    · rw [if_neg h0]; exact hc
  | down => rw [step_down_hist]; exact hc
  | enter =>
    rw [step_enter_hist]
    by_cases hg : trim s.input ≠ [] ∧ (s.history = [] ∨ s.history.getLast? ≠ some s.input)
    · rw [if_pos hg]
      rcases hg.2 with he | hne
      · rw [he]; simp
      · exact chain_ne_push s.history s.input hc hne
    · rw [if_neg hg]; exact hc

theorem foldl_step_chain (evs : List Ev) :
    ∀ s : EditorState, s.history.Chain' (· ≠ ·) →
      ((evs.foldl step s).history).Chain' (· ≠ ·) := by
  induction evs with
  | nil => intro s hc; simpa using hc
  | cons e rest ih => intro s hc; exact ih (step s e) (step_chain s e hc)

theorem step_hist_grows (s : EditorState) (e : Ev) :
    s.history <+: (step s e).history := by
  cases e with
  | char c => rw [step_char_hist]
  | backspace => rw [step_backspace_hist]
  | up =>
    rw [step_up_hist]
    by_cases h0 : 0 < s.index
    · rw [if_pos h0]
      by_cases hg : s.index = s.history.length ∧ s.history.getLast? ≠ some s.input
      · rw [if_pos hg]; exact List.prefix_append s.history [s.input]
      · rw [if_neg hg]
    · rw [if_neg h0]
  | down => rw [step_down_hist]
  | enter =>
    rw [step_enter_hist]
    by_cases hg : trim s.input ≠ [] ∧ (s.history = [] ∨ s.history.getLast? ≠ some s.input)
    · rw [if_pos hg]; exact List.prefix_append s.history [s.input]
    · rw [if_neg hg]

theorem foldl_hist_grows (evs : List Ev) :
    ∀ s : EditorState, s.history <+: ((evs.foldl step s).history) := by
  induction evs with
  | nil => intro s; simp
  | cons e rest ih =>
    intro s
    exact (step_hist_grows s e).trans (ih (step s e))

theorem foldl_edit_input (evs : List Ev) (h : ∀ e ∈ evs, e.isEdit = true) :
    ∀ s : EditorState, (evs.foldl step s).input = evs.foldl simStackEdit s.input := by
  induction evs with
  | nil => intro s; rfl
  | cons e rest ih =>
    intro s
    have he : e.isEdit = true := h e (List.mem_cons_self e rest)
    have hr : ∀ e2 ∈ rest, e2.isEdit = true := fun e2 h2 => h e2 (List.mem_cons_of_mem e h2)
    cases e with
    | char c =>
      have := ih hr { s with input := s.input ++ [c] }
      simpa [step, simStackEdit] using this
    | backspace =>
      have := ih hr { s with
        input := if s.input.isEmpty then s.input else s.input.dropLast }
      simpa [step, simStackEdit] using this
    | up => simp [Ev.isEdit] at he
    | down => simp [Ev.isEdit] at he
    | enter => simp [Ev.isEdit] at he

/- ------------------------------------------------------------------ -/
/- Lemmas: completion engine.                                          -/
/- ------------------------------------------------------------------ -/

theorem ac_render_single (width : Nat) (line : List Char)
    (entries0 : List (List Char × Bool)) (m : List Char × Bool)
    (hm : acMatching line entries0 = [m]) :
    ac_render width line entries0 =
      (replaceAll (acSearched line) (m.1 ++ (if m.2 then ['/'] else [])) line, []) := by
  simp only [ac_render, hm]
  norm_num

theorem tab_render_multi (user : List Char) (width : Nat) (input : List Char)
    (entries : List (List Char))
    (hm : 2 ≤ (matchesOf (searchedOf user input) entries).length) :
    tab_render user width input entries =
      (input,
        grid_out (matchesOf (searchedOf user input) entries) entries.length
          ((entries.map List.length).foldr max 0)
          (max (width / (((entries.map List.length).foldr max 0) + 2)) 1)) := by
  simp only [tab_render]
  rw [if_pos (show (matchesOf (searchedOf user input) entries).length > 1 from hm)]

/- ------------------------------------------------------------------ -/
/- Claims C2, C3, C4.                                                  -/
/- ------------------------------------------------------------------ -/

/-- C2 counterexample: on the line `cat ab ab` with the single matching
entry `abc` (a file), the code rewrites every occurrence of the search
prefix (`String::replace`), producing `cat abc abc`, whereas the claim
mandates that only the trailing token change (`cat ab abc`). -/
theorem c2_counterexample :
    acMatching ("cat ab ab".data) [(['a', 'b', 'c'], false)] = [(['a', 'b', 'c'], false)] ∧
      autocomplete rdABC 80 ("cat ab ab".data) = some ("cat abc abc".data, []) ∧
      "cat abc abc".data ≠ c2_claim_rewrite ("cat ab ab".data) (['a', 'b', 'c'], false) := by
  refine ⟨by decide, by decide, by decide⟩

/-- C2 (amended): when the directory listing yields exactly one matching
entry, the completion rewrites every non-overlapping occurrence of the
search prefix in the line (scanning left to right) to the matched entry name
— with a trailing path separator appended iff the entry is a directory —
and prints nothing.  (As claimed, but the rewrite is a global
`String::replace` of the prefix, not a rewrite of just the trailing token.) -/
theorem c2_amended_replace (readDir : List Char → Option (List (List Char × Bool)))
    (width : Nat) (line : List Char) (entries0 : List (List Char × Bool))
    (m : List Char × Bool)
    (hrd : readDir (acInPath line) = some entries0)
    (hm : acMatching line entries0 = [m]) :
    autocomplete readDir width line =
      some (replaceAll (acSearched line) (m.1 ++ (if m.2 then ['/'] else [])) line, []) := by
  simp only [autocomplete, hrd, Option.map_some']
  rw [ac_render_single width line entries0 m hm]

/-- Witness for C2 (amended): completing `cd ab` against a directory whose
single matching entry is the directory `abc` yields `cd abc/`. -/
theorem c2_witness :
    autocomplete rdABCdir 80 ("cd ab".data) = some ("cd abc/".data, []) := by
  have h := c2_amended_replace rdABCdir 80 ("cd ab".data)
    [(['a', 'b', 'c'], true)] (['a', 'b', 'c'], true) (by decide) (by decide)
  exact h.trans (by decide)

/-- C3: the claim says zero matches must leave the buffer unchanged with no
output, but `handle_tab`'s else-branch substitutes the empty string
(`first().unwrap_or("")`) into `input.replace(&searched_file, ...)`, deleting
the search prefix from the buffer: on `cat ab` with a directory containing
only `xyz` (zero matches), the buffer becomes `cat `. -/
theorem c3_bug_eval :
    matchesOf (searchedOf [] ("cat ab".data)) [['x', 'y', 'z']] = [] ∧
      handle_tab [] rdXYZ 80 ("cat ab".data) = some ("cat ".data, []) ∧
      "cat ".data ≠ "cat ab".data := by
  refine ⟨by decide, by decide, by decide⟩

/-- C4 counterexample: with terminal width 10 and matches `ab`, `abc`
(longest length 3), the code computes `columns = max(1, 10 / (3 + 2)) = 2`
while the claim mandates `max(1, 10 / (3 + 4)) = 1`; the rendered grids
differ. -/
theorem c4_counterexample :
    2 ≤ (matchesOf (searchedOf [] ("cat a".data)) [['a', 'b'], ['a', 'b', 'c']]).length ∧
      handle_tab [] rdAB 10 ("cat a".data) = some ("cat a".data, "\nab     abc    \n".data) ∧
      "\nab     abc    \n".data ≠
        c4_claim_grid (matchesOf (searchedOf [] ("cat a".data)) [['a', 'b'], ['a', 'b', 'c']]) 10 := by
  refine ⟨by decide, by decide, by decide⟩

/-- C4 (amended): with two or more matches the completion trigger renders a
left-aligned row-major grid and leaves the input buffer unchanged, but the
cell width is (longest name among ALL listed entries) + 4, the column count
is max(1, terminal width / (that maximum + 2)), and the trailing newline is
emitted when the TOTAL entry count (not the matched count) is not a multiple
of the column count. -/
theorem c4_amended_grid (user : List Char)
    (readDir : List Char → Option (List (List Char))) (width : Nat)
    (input : List Char) (entries : List (List Char))
    (hrd : readDir (dirOf user input) = some entries)
    (hm : 2 ≤ (matchesOf (searchedOf user input) entries).length) :
    handle_tab user readDir width input =
      some (input,
        grid_out (matchesOf (searchedOf user input) entries) entries.length
          ((entries.map List.length).foldr max 0)
          (max (width / (((entries.map List.length).foldr max 0) + 2)) 1)) := by
  simp only [handle_tab, hrd, Option.map_some']
  rw [tab_render_multi user width input entries hm]

/-- Witness for C4 (amended) at width 10, entries `ab`/`abc`, line `cat a`. -/
theorem c4_witness :
    handle_tab [] rdAB 10 ("cat a".data) =
      some ("cat a".data,
        grid_out (matchesOf (searchedOf [] ("cat a".data)) [['a', 'b'], ['a', 'b', 'c']])
          2 3 2) := by
  have h := c4_amended_grid [] rdAB 10 ("cat a".data) [['a', 'b'], ['a', 'b', 'c']]
    (by decide) (by decide)
  exact h.trans (by decide)

/- ------------------------------------------------------------------ -/
/- Claims C5, C7, C9.                                                  -/
/- ------------------------------------------------------------------ -/

/-- C5: for every sequence of input cycles (any interleaving of character,
backspace, up-arrow, down-arrow and enter events), the history store never
contains two adjacent equal entries. -/
theorem c5_history_adjacent_distinct (evs : List Ev) :
    ((evs.foldl step initState).history).Chain' (· ≠ ·) :=
  foldl_step_chain evs initState (by simp [initState])

/-- C7: for every sequence of character and backspace events with no enter,
starting from the empty edit buffer, the edit buffer equals the stack-edit
simulation applied to the same events. -/
theorem c7_edit_sim (evs : List Ev) (h : ∀ e ∈ evs, e.isEdit = true) :
    (evs.foldl step initState).input = evs.foldl simStackEdit [] :=
  foldl_edit_input evs h initState

/-- Witness for C7 at the concrete event sequence `h, i, backspace`. -/
theorem c7_witness :
    ([Ev.char 'h', Ev.char 'i', Ev.backspace].foldl step initState).input
      = [Ev.char 'h', Ev.char 'i', Ev.backspace].foldl simStackEdit [] :=
  c7_edit_sim [Ev.char 'h', Ev.char 'i', Ev.backspace] (by decide)

/-- C9: when up-arrow is pressed while the cursor equals the history length
and the live buffer differs from the last stored entry, the live buffer is
appended to the history store, and this staged entry is never removed by any
later events — the history only grows, so the stored prefix persists after
the cycle finalizes. -/
theorem c9_staged_permanent (s : EditorState)
    (h1 : s.index = s.history.length) (h2 : s.history ≠ [])
    (h3 : s.history.getLast? ≠ some s.input) :
    (step s .up).history = s.history ++ [s.input] ∧
      ∀ evs : List Ev,
        (s.history ++ [s.input]) <+: ((evs.foldl step (step s .up)).history) := by
  have h0 : 0 < s.index := by
    rw [h1]
    exact List.length_pos.mpr h2
  have hh : (step s .up).history = s.history ++ [s.input] := by
    rw [step_up_hist, if_pos h0, if_pos ⟨h1, h3⟩]
  refine ⟨hh, fun evs => ?_⟩
  rw [← hh]
  exact foldl_hist_grows evs (step s .up)

/-- Witness for C9: history `["x"]`, live buffer `"y"`, cursor at 1; the
staged entry survives a subsequent enter event. -/
theorem c9_witness :
    (step ⟨[['x']], ['y'], 1⟩ .up).history = [['x'], ['y']] ∧
      [['x'], ['y']] <+:
        (([Ev.enter].foldl step (step ⟨[['x']], ['y'], 1⟩ .up)).history) := by
  have h := c9_staged_permanent ⟨[['x']], ['y'], 1⟩ (by decide) (by decide) (by decide)
  exact ⟨h.1, h.2 [Ev.enter]⟩

/- ------------------------------------------------------------------ -/
/- Lemmas: pipeline builder/executor.                                  -/
/- ------------------------------------------------------------------ -/

theorem resolve_not_ok (ex : List Char → Bool) (c : List Char)
    (h : exOk (resolve_command ex c) = false) :
    resolve_command ex c = .error (.CommandNotFound c) := by
  unfold resolve_command at h ⊢
  by_cases h1 : '/' ∈ c
  · rw [if_pos h1] at h; exact absurd h (by simp [exOk])
  · rw [if_neg h1] at h ⊢
    by_cases h2 : ex ("/bin/".data ++ c) = true
    · rw [if_pos h2] at h; exact absurd h (by simp [exOk])
    · rw [if_neg h2] at h ⊢
      by_cases h3 : ex ("/usr/bin/".data ++ c) = true
      · rw [if_pos h3] at h; exact absurd h (by simp [exOk])
      · rw [if_neg h3]

theorem exec_spawnable (ex fs : List Char → Bool) (cwd : List Char) (idx : Nat)
    (stage : List Char) (prev : Option ChildP) (more : Bool)
    (hs : spawnable ex stage = true) :
    execute_command ex fs cwd idx (trim stage) prev more =
      .ok (some ⟨idx, more⟩)
        (some ⟨resolvedOf ex stage, argsOf stage, get_stdin prev, get_stdout more⟩)
        cwd := by
  unfold spawnable at hs
  cases hsw : splitWs (trim stage) with
  | nil => rw [hsw] at hs; simp at hs
  | cons c args2 =>
    rw [hsw] at hs
    simp only [Bool.and_eq_true, Bool.not_eq_true', decide_eq_true_eq] at hs
    obtain ⟨⟨hne, hnb⟩, hres⟩ := hs
    have hcd : ¬(c = "cd".data) := fun h => absurd hnb (by rw [h]; decide)
    have hex : ¬(c = "exit".data ∨ c = "exit;".data) := by
      rintro (h | h) <;> exact absurd hnb (by rw [h]; decide)
    have hab : ¬(c = "about".data) := fun h => absurd hnb (by rw [h]; decide)
    cases hr : resolve_command ex c with
    | error e => rw [hr] at hres; exact absurd hres (by simp [exOk])
    | ok path =>
      have hrv : resolvedOf ex stage = path := by
        unfold resolvedOf head_cmd
        rw [hsw]
        simp only [List.headD_cons]
        rw [hr]
      have hav : argsOf stage = args2 := by unfold argsOf; rw [hsw]; rfl
      unfold execute_command
      rw [if_neg hne, hsw]
      simp only [if_neg hcd, if_neg hex, if_neg hab, hr, hrv, hav]

theorem exec_unresolvable (ex fs : List Char → Bool) (cwd : List Char) (idx : Nat)
    (stage : List Char) (prev : Option ChildP) (more : Bool)
    (hs : unresolvable ex stage = true) :
    execute_command ex fs cwd idx (trim stage) prev more =
      .err (.CommandNotFound (head_cmd stage)) := by
  unfold unresolvable at hs
  cases hsw : splitWs (trim stage) with
  | nil => rw [hsw] at hs; simp at hs
  | cons c args2 =>
    rw [hsw] at hs
    simp only [Bool.and_eq_true, Bool.not_eq_true', decide_eq_true_eq] at hs
    obtain ⟨⟨hne, hnb⟩, hres⟩ := hs
    have hcd : ¬(c = "cd".data) := fun h => absurd hnb (by rw [h]; decide)
    have hex : ¬(c = "exit".data ∨ c = "exit;".data) := by
      rintro (h | h) <;> exact absurd hnb (by rw [h]; decide)
    have hab : ¬(c = "about".data) := fun h => absurd hnb (by rw [h]; decide)
    have hhc : head_cmd stage = c := by unfold head_cmd; rw [hsw]; rfl
    unfold execute_command
    rw [if_neg hne, hsw]
    simp only [if_neg hcd, if_neg hex, if_neg hab, resolve_not_ok ex c hres, hhc]

theorem run_cons_spawnable (ex fs : List Char → Bool) (stage : List Char)
    (rest : List (List Char)) (prev : Option ChildP) (idx : Nat)
    (acc : List SpawnRec) (cwd : List Char)
    (hs : spawnable ex stage = true) :
    run_stages ex fs (stage :: rest) prev idx acc cwd =
      run_stages ex fs rest (some ⟨idx, !rest.isEmpty⟩) (idx + 1)
        (acc ++ [⟨resolvedOf ex stage, argsOf stage, get_stdin prev,
                  get_stdout (!rest.isEmpty)⟩]) cwd := by
  have he := exec_spawnable ex fs cwd idx stage prev (!rest.isEmpty) hs
  simp only [run_stages, he]

theorem run_stages_err (ex fs : List Char → Bool) (bad : List Char)
    (post : List (List Char)) (hbad : unresolvable ex bad = true) :
    ∀ pre : List (List Char), (∀ s ∈ pre, spawnable ex s = true) →
      ∀ (prev : Option ChildP) (idx : Nat) (acc : List SpawnRec) (cwd : List Char),
        (run_stages ex fs (pre ++ bad :: post) prev idx acc cwd).errOf
            = some (.CommandNotFound (head_cmd bad)) ∧
          (run_stages ex fs (pre ++ bad :: post) prev idx acc cwd).spawns.length
            = acc.length + pre.length ∧
          (run_stages ex fs (pre ++ bad :: post) prev idx acc cwd).cwdOf = cwd := by
  intro pre
  induction pre with
  | nil =>
    intro _ prev idx acc cwd
    have he := exec_unresolvable ex fs cwd idx bad prev (!post.isEmpty) hbad
    simp [run_stages, he, PRes.errOf, PRes.spawns, PRes.cwdOf]
  | cons s pre2 ih =>
    intro hall prev idx acc cwd
    have hs : spawnable ex s = true := hall s (List.mem_cons_self s pre2)
    rw [List.cons_append, run_cons_spawnable ex fs s (pre2 ++ bad :: post) prev idx acc cwd hs]
    obtain ⟨e1, e2, e3⟩ :=
      ih (fun t ht => hall t (List.mem_cons_of_mem s ht))
        (some ⟨idx, !(pre2 ++ bad :: post).isEmpty⟩) (idx + 1)
        (acc ++ [⟨resolvedOf ex s, argsOf s, get_stdin prev,
                  get_stdout (!(pre2 ++ bad :: post).isEmpty)⟩]) cwd
    refine ⟨e1, ?_, e3⟩
    rw [e2, List.length_append]
    simp only [List.length_cons, List.length_nil, List.length_singleton]
    omega

theorem get_stdout_not (b : Bool) :
    get_stdout (!b) = if b then OutEndpoint.inherit else OutEndpoint.piped := by
  cases b <;> rfl

theorem run_stages_all (ex fs : List Char → Bool) :
    ∀ stages : List (List Char), (∀ s ∈ stages, spawnable ex s = true) →
      ∀ (prev : Option ChildP) (idx : Nat) (acc : List SpawnRec) (cwd : List Char),
        run_stages ex fs stages prev idx acc cwd =
          .ok (acc ++ expectedSpawns ex idx (get_stdin prev) stages)
            (if stages.isEmpty then prev.map (fun c => c.idx)
             else some (idx + stages.length - 1)) cwd := by
  intro stages
  induction stages with
  | nil =>
    intro _ prev idx acc cwd
    simp [run_stages, expectedSpawns]
  | cons s rest ih =>
    intro hall prev idx acc cwd
    have hs : spawnable ex s = true := hall s (List.mem_cons_self s rest)
    rw [run_cons_spawnable ex fs s rest prev idx acc cwd hs]
    rw [ih (fun t ht => hall t (List.mem_cons_of_mem s ht))
      (some (ChildP.mk idx (!rest.isEmpty))) (idx + 1)
      (acc ++ [SpawnRec.mk (resolvedOf ex s) (argsOf s) (get_stdin prev)
        (get_stdout (!rest.isEmpty))]) cwd]
    cases rest with
    | nil =>
      simp [expectedSpawns, get_stdin, get_stdout, List.append_assoc]
    | cons r rs =>
      simp [expectedSpawns, get_stdin, get_stdout, List.append_assoc, List.length_cons]
      omega

theorem expectedSpawns_length (ex : List Char → Bool) :
    ∀ (stages : List (List Char)) (idx : Nat) (f : Endpoint),
      (expectedSpawns ex idx f stages).length = stages.length := by
  intro stages
  induction stages with
  | nil => intro idx f; rfl
  | cons s rest ih => intro idx f; simp [expectedSpawns, ih]

theorem expectedSpawns_getD (ex : List Char → Bool) :
    ∀ (stages : List (List Char)) (idx : Nat) (f : Endpoint) (i : Nat),
      i < stages.length →
        (expectedSpawns ex idx f stages).getD i default =
          ⟨resolvedOf ex (stages.getD i []), argsOf (stages.getD i []),
            if i = 0 then f else .pipeFrom (idx + i - 1),
            if i = stages.length - 1 then .inherit else .piped⟩ := by
  intro stages
  induction stages with
  | nil => intro idx f i hi; exact absurd hi (by simp)
  | cons s rest ih =>
    intro idx f i hi
    cases i with
    | zero =>
      simp only [expectedSpawns, List.getD_cons_zero, if_pos rfl]
      cases rest with
      | nil => rfl
      | cons r rs => simp
    | succ i =>
      have hi2 : i < rest.length := by simpa using hi
      simp only [expectedSpawns, List.getD_cons_succ]
      rw [ih (idx + 1) (.pipeFrom idx) i hi2]
      have hstdin :
          (if i = 0 then Endpoint.pipeFrom idx else Endpoint.pipeFrom (idx + 1 + i - 1))
            = Endpoint.pipeFrom (idx + (i + 1) - 1) := by
        by_cases hz : i = 0
        · subst hz; simp
        · rw [if_neg hz]; congr 1; omega
      have hstdout :
          (if i = rest.length - 1 then OutEndpoint.inherit else OutEndpoint.piped)
            = (if i + 1 = (s :: rest).length - 1 then OutEndpoint.inherit
               else OutEndpoint.piped) := by
        have hlen : (s :: rest).length - 1 = rest.length := by simp
        rw [hlen]
        by_cases hz : i = rest.length - 1
        · rw [if_pos hz, if_pos (by omega)]
        · rw [if_neg hz, if_neg (by omega)]
      rw [hstdin, hstdout, if_neg (Nat.succ_ne_zero i)]

/- ------------------------------------------------------------------ -/
/- Claims C1, C6, C8, C10.                                             -/
/- ------------------------------------------------------------------ -/

/-- C1 counterexample: in the pipeline `a | b` with `/bin/a` present and `b`
unresolvable, execution does fail with `CommandNotFound`, but stage 0 has
already been spawned — the claim's "no stage of that pipeline is spawned" is
false when the unresolvable stage is not the first. -/
theorem c1_counterexample :
    unresolvable exA ("b".data) = true ∧
      splitOnSep (" | ".data) ("a | b".data) = ["a".data, "b".data] ∧
      (process_input exA fsNone ("/".data) ("a | b".data)).errOf
        = some (.CommandNotFound ("b".data)) ∧
      (process_input exA fsNone ("/".data) ("a | b".data)).spawns.length = 1 := by
  refine ⟨by decide, by decide, by decide, by decide⟩

/-- C1 (amended): when the stages before the first unresolvable stage are
all spawnable (non-built-in, resolvable) and some stage's command fails to
resolve, the pipeline fails with `CommandNotFound` for that stage and no
stage from it onward is spawned; exactly the stages before it (already
processed when the failure is hit) have been spawned, and the working
directory is unchanged.  In particular, when the first stage is the
unresolvable one, no stage at all is spawned. -/
theorem c1_amended_abort (ex fs : List Char → Bool) (cwd input : List Char)
    (pre post : List (List Char)) (bad : List Char)
    (hsplit : splitOnSep (" | ".data) input = pre ++ bad :: post)
    (hpre : ∀ s ∈ pre, spawnable ex s = true)
    (hbad : unresolvable ex bad = true) :
    (process_input ex fs cwd input).errOf = some (.CommandNotFound (head_cmd bad)) ∧
      (process_input ex fs cwd input).spawns.length = pre.length ∧
      (process_input ex fs cwd input).cwdOf = cwd := by
  unfold process_input
  rw [hsplit]
  have h := run_stages_err ex fs bad post hbad pre hpre none 0 [] cwd
  simpa using h

/-- Witness for C1 (amended) at the pipeline `a | b` (only `/bin/a`
exists). -/
theorem c1_witness :
    (process_input exA fsNone ("/".data) ("a | b".data)).errOf
        = some (.CommandNotFound (head_cmd ("b".data))) ∧
      (process_input exA fsNone ("/".data) ("a | b".data)).spawns.length
        = ([("a".data)]).length ∧
      (process_input exA fsNone ("/".data) ("a | b".data)).cwdOf = "/".data :=
  c1_amended_abort exA fsNone ("/".data) ("a | b".data) [("a".data)] [] ("b".data)
    (by decide) (by decide) (by decide)

/-- C6: a pipeline all of whose stages are spawnable (resolvable,
non-built-in) spawns exactly one process per stage, in stage order
(`expectedSpawns` lists them in order of the stage texts); stage 0 reads the
shell's own input, stage i>0 reads stage i-1's output pipe, the last stage
writes the shell's own output while all earlier stages write fresh pipes;
and the run ends awaiting exactly the final stage's process. -/
theorem c6_pipeline_wiring (ex fs : List Char → Bool) (cwd input : List Char)
    (stages : List (List Char))
    (hsplit : splitOnSep (" | ".data) input = stages)
    (hne : stages ≠ [])
    (hall : ∀ s ∈ stages, spawnable ex s = true) :
    process_input ex fs cwd input
        = .ok (expectedSpawns ex 0 .inherit stages) (some (stages.length - 1)) cwd ∧
      (expectedSpawns ex 0 .inherit stages).length = stages.length ∧
      ∀ i, i < stages.length →
        ((expectedSpawns ex 0 .inherit stages).getD i default).cmd
            = resolvedOf ex (stages.getD i []) ∧
          ((expectedSpawns ex 0 .inherit stages).getD i default).stdin
            = (if i = 0 then Endpoint.inherit else Endpoint.pipeFrom (i - 1)) ∧
          ((expectedSpawns ex 0 .inherit stages).getD i default).stdout
            = (if i = stages.length - 1 then OutEndpoint.inherit
               else OutEndpoint.piped) := by
  have hie : stages.isEmpty = false := by
    cases stages with
    | nil => exact absurd rfl hne
    | cons a l => rfl
  refine ⟨?_, expectedSpawns_length ex stages 0 .inherit, ?_⟩
  · unfold process_input
    rw [hsplit, run_stages_all ex fs stages hall none 0 [] cwd]
    simp [hie, get_stdin]
  · intro i hi
    have h := expectedSpawns_getD ex stages 0 .inherit i hi
    rw [h]
    refine ⟨rfl, ?_, rfl⟩
    by_cases hz : i = 0
    · subst hz; rfl
    · rw [if_neg hz, if_neg hz]
      show Endpoint.pipeFrom (0 + i - 1) = Endpoint.pipeFrom (i - 1)
      congr 1
      omega

/-- Witness for C6 at the pipeline `a | b | c` with all three resolvable:
three spawns, and stage 1 reads stage 0's pipe. -/
theorem c6_witness :
    process_input exABC fsNone ("/".data) ("a | b | c".data)
        = .ok (expectedSpawns exABC 0 .inherit ["a".data, "b".data, "c".data])
            (some 2) ("/".data) ∧
      ((expectedSpawns exABC 0 .inherit
          ["a".data, "b".data, "c".data]).getD 1 default).stdin
        = Endpoint.pipeFrom 0 := by
  have h := c6_pipeline_wiring exABC fsNone ("/".data) ("a | b | c".data)
    ["a".data, "b".data, "c".data] (by decide) (by decide) (by decide)
  exact ⟨h.1, ((h.2.2 1 (by decide)).2.1).trans (by decide)⟩

/-- C8: a `cd` to a path the file-system oracle rejects leaves the working
directory unchanged, surfaces the `NotFound` failure as the pipeline's
reported diagnostic, and the `init` loop continues running the shell. -/
theorem c8_cd_missing (ex fs : List Char → Bool) (cwd path input : List Char)
    (hsplit : splitOnSep (" | ".data) input = [input])
    (hws : splitWs (trim input) = ["cd".data, path])
    (hexit : trim input ≠ "exit".data)
    (hfs : fs path = false) :
    init_step ex fs cwd input = .cont (.errored .PathNotFound [] cwd) ∧
      (process_input ex fs cwd input).cwdOf = cwd ∧
      shell_continues (init_step ex fs cwd input) = true := by
  have htrim : trim input ≠ [] := by
    intro h
    rw [h] at hws
    simp [splitWs, splitWsGo] at hws
  have hproc : process_input ex fs cwd input = .errored .PathNotFound [] cwd := by
    unfold process_input
    rw [hsplit]
    simp only [run_stages]
    unfold execute_command
    rw [if_neg htrim, hws]
    simp [change_directory, set_current_dir, hfs]
  refine ⟨?_, by rw [hproc]; rfl, ?_⟩
  · unfold init_step
    rw [if_neg hexit, hproc]
  · unfold init_step
    rw [if_neg hexit, hproc]
    rfl

/-- Witness for C8: `cd nope` on a file system with no paths. -/
theorem c8_witness :
    init_step exA fsNone ("/".data) ("cd nope".data)
        = .cont (.errored .PathNotFound [] ("/".data)) ∧
      (process_input exA fsNone ("/".data) ("cd nope".data)).cwdOf = "/".data ∧
      shell_continues (init_step exA fsNone ("/".data) ("cd nope".data)) = true :=
  c8_cd_missing exA fsNone ("/".data) ("nope".data) ("cd nope".data)
    (by decide) (by decide) (by decide) (by decide)

/-- C10: a `cd` with no argument resolves the target with
`args.get(0).map_or("/", ...)` and so changes the working directory to the
root directory `/` (which exists per the oracle); nothing is spawned. -/
theorem c10_cd_root (ex fs : List Char → Bool) (cwd input : List Char)
    (hsplit : splitOnSep (" | ".data) input = [input])
    (hws : splitWs (trim input) = ["cd".data])
    (hfs : fs ("/".data) = true) :
    process_input ex fs cwd input = .ok [] none ("/".data) := by
  have htrim : trim input ≠ [] := by
    intro h
    rw [h] at hws
    simp [splitWs, splitWsGo] at hws
  unfold process_input
  rw [hsplit]
  simp only [run_stages]
  unfold execute_command
  rw [if_neg htrim, hws]
  simp [change_directory, set_current_dir, hfs]

/-- Witness for C10: a bare `cd` from `/x` with `/` existing. -/
theorem c10_witness :
    process_input exA fsRoot ("/x".data) ("cd".data) = .ok [] none ("/".data) :=
  c10_cd_root exA fsRoot ("/x".data) ("cd".data) (by decide) (by decide) (by decide)

end Ashell
